import Mathlib

/-!
Shallow embedding of MovieDimensionService (src/MovieDimensionService):
`movie_dimension.py` (`calculate_visible_height`, `get_file_path_from_plex`)
and `app.py` (`map_plex_path_to_container`), together with theorems about
the behaviour of those routines.

External effects (filesystem, OpenCV video decoding, HTTP) are abstracted
as environments.  A decoded frame is represented by its grayscale
luminance matrix (the value `cv2.cvtColor(frame, COLOR_BGR2GRAY)` would
produce) since only luminance reaches the thresholding step.  Python
exceptions raised by the decoding primitives are modelled with `Except`:
a primitive returning `.error` corresponds to a raised exception, which
the top-level `try/except` of the source converts to the default ratio.
-/

namespace MovieDimension

/-- A decoded video frame, given by its grayscale pixel matrix (rows of
luminance values 0–255).  `frame.shape[:2]` is (number of rows, length
of the first row). -/
structure Frame where
  pixels : List (List Nat)
deriving DecidableEq

/-- `frame.shape[0]` (number of rows). -/
def Frame.heightI (f : Frame) : Int := f.pixels.length

/-- `frame.shape[1]` (row length; numpy arrays are rectangular, so this
is the length of every row — modelled as the length of the first). -/
def Frame.widthI (f : Frame) : Int := (f.pixels.headD []).length

/-- OpenCV frames are rectangular numpy arrays: every row has the same
length.  The `List (List Nat)` representation is more permissive, so
rectangularity is an explicit side condition where a proof needs it. -/
def Frame.Rect (f : Frame) : Prop :=
  ∀ row ∈ f.pixels, row.length = (f.pixels.headD []).length

/-- Content pixels of one row: positions `x` (starting at `x0`) whose
luminance is strictly above the threshold, i.e. the nonzero entries of
`cv2.threshold(gray, black_thresh, 255, THRESH_BINARY)` in that row. -/
def rowContent (th : Int) (y : Nat) : Nat → List Nat → List (Nat × Nat)
  | _, [] => []
  | x, v :: vs =>
      if th < (v : Int) then (x, y) :: rowContent th y (x + 1) vs
      else rowContent th y (x + 1) vs

/-- Content pixels of a pixel matrix, row-major, starting at row `y`. -/
def framesContent (th : Int) : Nat → List (List Nat) → List (Nat × Nat)
  | _, [] => []
  | y, row :: rows => rowContent th y 0 row ++ framesContent th (y + 1) rows

/-- `cv2.findNonZero` of the thresholded frame: the (x, y) coordinates of
all pixels strictly brighter than `black_thresh`, in row-major order
(`[]` plays the role of `findNonZero` returning `None`). -/
def contentCoords (f : Frame) (th : Int) : List (Nat × Nat) :=
  framesContent th 0 f.pixels

/-- `numpy.min` over a nonempty collection `x :: xs`. -/
def intsMin (x : Int) (xs : List Int) : Int := xs.foldl min x

/-- `numpy.max` over a nonempty collection `x :: xs`. -/
def intsMax (x : Int) (xs : List Int) : Int := xs.foldl max x

/-- The accumulator variables of `calculate_visible_height`
(lines 85–103 of movie_dimension.py): frame dimensions discovered from
the first decoded frame, the bounding-box accumulators, and `found_any`. -/
structure BoxState where
  width : Int
  height : Int
  min_x : Option Int
  min_y : Option Int
  max_x : Option Int
  max_y : Option Int
  found_any : Bool
deriving DecidableEq

/-- Initial accumulator state (width = height = 0, box unset). -/
def initState : BoxState := ⟨0, 0, none, none, none, none, false⟩

/-- Processing of one successfully decoded frame (lines 114–134 /
145–165): lazily initialise dimensions and box extremes when
`width == 0 or height == 0`, then—if the thresholded frame has any
nonzero pixel—expand the box by the frame's content extremes.
In the source `min_x` is always a number (never `None`) when the
expansion runs, because initialisation precedes it in the same
iteration; `Option.getD 0` mirrors that and is never exercised with
`none` on states reachable from `initState`. -/
def processFrame (th : Int) (st : BoxState) (f : Frame) : BoxState :=
  let st1 :=
    if st.width = 0 ∨ st.height = 0 then
      { width := f.widthI, height := f.heightI,
        min_x := some f.widthI, min_y := some f.heightI,
        max_x := some 0, max_y := some 0,
        found_any := st.found_any }
    else st
  match contentCoords f th with
  | [] => st1
  | c :: cs =>
      { st1 with
        found_any := true,
        min_x := some (min (st1.min_x.getD 0)
          (intsMin (c.1 : Int) (cs.map (fun p : Nat × Nat => (p.1 : Int))))),
        max_x := some (max (st1.max_x.getD 0)
          (intsMax (c.1 : Int) (cs.map (fun p : Nat × Nat => (p.1 : Int))))),
        min_y := some (min (st1.min_y.getD 0)
          (intsMin (c.2 : Int) (cs.map (fun p : Nat × Nat => (p.2 : Int))))),
        max_y := some (max (st1.max_y.getD 0)
          (intsMax (c.2 : Int) (cs.map (fun p : Nat × Nat => (p.2 : Int))))) }

/-- Frame-index selection (lines 91–96).  `sample_frames = 0` together
with `frame_count > sample_frames` makes Python raise ZeroDivisionError
in `frame_count // sample_frames`, modelled as `.error`; `//` on ints is
floor division, i.e. `Int.fdiv`. -/
def sampleIndices (frame_count sample_frames : Int) : Except String (List Int) :=
  if frame_count ≤ sample_frames then
    .ok ((List.range frame_count.toNat).map (fun i : Nat => (i : Int)))
  else if sample_frames = 0 then .error ("ZeroDivisionError")
  else
    .ok ((List.range sample_frames.toNat).map
      (fun i : Nat => min (frame_count - 1) ((i : Int) * max 1 (Int.fdiv frame_count sample_frames))))

/-- Abstraction of the filesystem and of one `cv2.VideoCapture`:
whether the path exists, whether the capture opens, the reported frame
count (`int(cap.get(CAP_PROP_FRAME_COUNT) or 0)`), the result of a
seek-and-read at a given index, and the result of the k-th sequential
read.  `.ok none` is `cap.read()` returning `(False, None)`; `.error`
is an exception raised while decoding. -/
structure VideoEnv where
  pathExists : Bool
  opens : Bool
  frameCount : Int
  readAt : Int → Except String (Option Frame)
  readSeq : Nat → Except String (Option Frame)

/-- The indexed sampling loop (lines 107–134): a failed read is skipped
(`continue`), a decoded frame is processed. -/
def runIndexed (env : VideoEnv) (th : Int) : List Int → BoxState → Except String BoxState
  | [], st => .ok st
  | idx :: rest, st =>
      match env.readAt idx with
      | .error e => .error e
      | .ok none => runIndexed env th rest st
      | .ok (some f) => runIndexed env th rest (processFrame th st f)

/-- The sequential fallback loop (lines 138–165): `fuel` is
`sample_frames - samples_taken` (each non-breaking iteration increments
`samples_taken`, whether or not the frame contributes), `pos` counts the
reads; a failed read `break`s, returning the state accumulated so far. -/
def runSeq (env : VideoEnv) (th : Int) : Nat → Nat → BoxState → Except String BoxState
  | 0, _, st => .ok st
  | fuel + 1, pos, st =>
      match env.readSeq pos with
      | .error e => .error e
      | .ok none => .ok st
      | .ok (some f) => runSeq env th fuel (pos + 1) (processFrame th st f)

/-- The whole sampling phase (lines 82–165): compute indices when
`frame_count > 0`; use the indexed loop when `use_indexed and indices`,
the sequential fallback otherwise. -/
def calcBody (env : VideoEnv) (sample_frames th : Int) : Except String BoxState :=
  if 0 < env.frameCount then
    match sampleIndices env.frameCount sample_frames with
    | .error e => .error e
    | .ok indices =>
        if indices = [] then runSeq env th sample_frames.toNat 0 initState
        else runIndexed env th indices initState
  else runSeq env th sample_frames.toNat 0 initState

/-- `DEFAULT_RATIO` of the source (renamed; 1.76). -/
def defaultRatio : ℚ := 176 / 100

/-- `VALID_RATIOS` of the source (renamed): inclusive aspect-ratio bands. -/
def validRatios : List (ℚ × ℚ) :=
  [(175 / 100, 179 / 100), (235 / 100, 240 / 100),
   (220 / 100, 225 / 100), (184 / 100, 190 / 100)]

/-- Python's `round(x, 2)`, modelled over ℚ as rounding `100·x` to the
nearest integer (the spec leaves the tie-breaking mode deliberately
unspecified; `round` here is Mathlib's round-half-up). -/
def round2 (q : ℚ) : ℚ := ((round (q * 100) : ℤ) : ℚ) / 100

/-- The classifier loop over an arbitrary band table (lines 184–190):
return the ratio on the first band containing it, the default when no
band matches. -/
def classifyWith (bands : List (ℚ × ℚ)) (r : ℚ) : ℚ :=
  match bands.find? (fun b => decide (b.1 ≤ r) && decide (r ≤ b.2)) with
  | some _ => r
  | none => defaultRatio

/-- The classifier with the source's `VALID_RATIOS` table. -/
def classifyRatio (r : ℚ) : ℚ := classifyWith validRatios r

/-- `vis_w = max_x - min_x + 1` (line 173). -/
def visW (st : BoxState) : Int := st.max_x.getD 0 - st.min_x.getD 0 + 1

/-- `vis_h = max_y - min_y + 1` (line 174). -/
def visH (st : BoxState) : Int := st.max_y.getD 0 - st.min_y.getD 0 + 1

/-- Observable outcome of one call: the returned ratio, whether the
capture was successfully opened, and whether `cap.release()` ran before
returning. -/
structure CalcResult where
  ratio : ℚ
  opened : Bool
  released : Bool
deriving DecidableEq

/-- `calculate_visible_height` (lines 70–194) with the resource events
made observable.  The `.error` branch is the `except` handler of
line 192: it returns the default ratio, and — the source having no
`finally` — without `cap.release()` having run. -/
def calculate_visible_height_run (env : VideoEnv) (filePath : String)
    (sample_frames black_thresh : Int) : CalcResult :=
  if filePath = "" ∨ env.pathExists = false then ⟨defaultRatio, false, false⟩
  else if env.opens = false then ⟨defaultRatio, false, false⟩
  else
    match calcBody env sample_frames black_thresh with
    | .error _ => ⟨defaultRatio, true, false⟩
    | .ok st =>
        if st.found_any = false ∨ st.min_x = none then ⟨defaultRatio, true, true⟩
        else if visH st ≤ 0 ∨ visW st ≤ 0 then ⟨defaultRatio, true, true⟩
        else ⟨classifyRatio (round2 ((visW st : ℚ) / (visH st : ℚ))), true, true⟩

/-- The return value of `calculate_visible_height`. -/
def calculate_visible_height (env : VideoEnv) (filePath : String)
    (sample_frames black_thresh : Int) : ℚ :=
  (calculate_visible_height_run env filePath sample_frames black_thresh).ratio

/-! ### Path resolver (`app.py`, `map_plex_path_to_container`)

Python strings are modelled as `List Char`. -/

/-- Python strings as character lists. -/
abbrev PyStr := List Char

/-- Python `str.replace(pat, rep)` for a nonempty pattern
`p0 :: ps`: leftmost non-overlapping occurrences are replaced, scanning
left to right and skipping past each replacement. -/
def pyReplace (p0 : Char) (ps rep : PyStr) : PyStr → PyStr
  | [] => []
  | c :: rest =>
      if (p0 :: ps).isPrefixOf (c :: rest) then
        rep ++ pyReplace p0 ps rep (rest.drop ps.length)
      else c :: pyReplace p0 ps rep rest
termination_by s => s.length
decreasing_by
  · simp [List.length_drop]; omega
  · simp

/-- Python `str.strip()` (leading and trailing whitespace removed;
Python's whitespace set restricted to `Char.isWhitespace`). -/
def pyStrip (s : PyStr) : PyStr :=
  ((s.dropWhile Char.isWhitespace).reverse.dropWhile Char.isWhitespace).reverse

/-- `posixpath.basename`: everything after the last slash. -/
def pyBasename (s : PyStr) : PyStr :=
  (s.reverse.takeWhile (fun c => c ≠ '/')).reverse

/-- `os.path.join(a, b)` (posix): an absolute `b` wins; otherwise `b` is
appended, inserting a slash unless `a` is empty or already ends in one. -/
def pyJoin (a b : PyStr) : PyStr :=
  if (['/'] : PyStr).isPrefixOf b then b
  else if a = [] then b
  else if a.getLast? = some '/' then a ++ b
  else a ++ '/' :: b

/-- `re.match(r'^[A-Za-z]:/(.*)', path)` (line 31): on a match, the
value of group 1 — the characters after the drive prefix up to the
first newline (`.` does not match a newline). -/
def driveMatch : PyStr → Option PyStr
  | c :: c2 :: c3 :: rest =>
      if c.isAlpha ∧ c2 = ':' ∧ c3 = '/' then
        some (rest.takeWhile (fun ch => ch ≠ '\n'))
      else none
  | _ => none

/-- Separator normalisation and trim of `map_plex_path_to_container`
(line 24): `path.replace('\\\\', '/').replace('\\', '/').strip()`
(the first pattern is two backslash characters, the second one). -/
def normalizePlex (p : PyStr) : PyStr :=
  pyStrip (pyReplace '\\' [] ['/'] (pyReplace '\\' ['\\'] ['/'] p))

/-- The rule dispatch of `map_plex_path_to_container` (lines 26–43),
applied to the already-normalised `path`. -/
def mapResolve (root path : PyStr) : Option PyStr :=
  if root.isPrefixOf path then some path
  else
    match driveMatch path with
    | some rel => some (pyJoin root (rel.dropWhile (fun c => c = '/')))
    | none =>
        if (['/', '/'] : PyStr).isPrefixOf path ∨ (['/'] : PyStr).isPrefixOf path then
          some (pyJoin root (path.dropWhile (fun c => c = '/')))
        else some (pyJoin root (pyBasename path))

/-- `map_plex_path_to_container` (app.py lines 13–43), parametrised by
the container root `VIDEO_ROOT`. -/
def map_plex_path_to_container (root p : PyStr) : Option PyStr :=
  if p = [] then none
  else mapResolve root (normalizePlex p)

/-! ### Plex lookup (`movie_dimension.py`, `get_file_path_from_plex`) -/

/-- JSON values, as far as the lookup observes them. -/
inductive Json where
  | str (s : String)
  | num (q : ℚ)
  | bool (b : Bool)
  | null
  | arr (xs : List Json)
  | obj (fields : List (String × Json))

/-- Python truthiness of a JSON value. -/
def Json.truthy : Json → Bool
  | .str s => !(s == "")
  | .num q => !(q == 0)
  | .bool b => b
  | .null => false
  | .arr xs => !xs.isEmpty
  | .obj fs => !fs.isEmpty

/-- `d.get(k, default)`: raises AttributeError unless `d` is a dict. -/
def jGet (j : Json) (k : String) (d : Json) : Except String Json :=
  match j with
  | .obj fs => .ok ((fs.lookup k).getD d)
  | _ => .error ("AttributeError")

/-- `v[0]`: first element of a list (IndexError when empty), first
character of a string, TypeError/KeyError otherwise. -/
def jIndex0 (j : Json) : Except String Json :=
  match j with
  | .arr (x :: _) => .ok x
  | .arr [] => .error ("IndexError")
  | .str s => if s = "" then .error ("IndexError") else .ok (.str (String.singleton (s.get 0)))
  | .obj _ => .error ("KeyError")
  | _ => .error ("TypeError")

/-- The response navigation of lines 217–228:
`data.get('MediaContainer', {}).get('Metadata', [{}])[0].get('Media', [{}])[0].get('Part', [{}])`,
the truthiness guards, and the final `parts[0]['file']` access.
`.ok none` is the explicit `return None` of line 225; `.error` is an
exception (caught by the enclosing handler). -/
def plexNav (data : Json) : Except String (Option Json) := do
  let mc ← jGet data ("MediaContainer") (.obj [])
  let mdList ← jGet mc ("Metadata") (.arr [.obj []])
  let md0 ← jIndex0 mdList
  let mediaList ← jGet md0 ("Media") (.arr [.obj []])
  let media0 ← jIndex0 mediaList
  let parts ← jGet media0 ("Part") (.arr [.obj []])
  if parts.truthy = false then return none
  let p0 ← jIndex0 parts
  let fileGet ← jGet p0 ("file") .null
  if fileGet.truthy = false then return none
  let p0b ← jIndex0 parts
  match p0b with
  | .obj fs =>
      match fs.lookup ("file") with
      | some v => return (some v)
      | none => .error ("KeyError")
  | _ => .error ("TypeError")

/-- Outcome of `requests.get(...)`, `raise_for_status()` and `.json()`:
`.error` covers a network failure, an HTTP error status and a body that
fails to parse; `.ok` is the decoded JSON document. -/
structure PlexEnv where
  response : Except String Json

/-- `get_file_path_from_plex` (lines 197–231): `none` on every failure,
the JSON value found at the file field on success. -/
def get_file_path_from_plex (env : PlexEnv) (plex_base_url plex_token : String) :
    Option Json :=
  if plex_base_url = "" ∨ plex_token = "" then none
  else
    match env.response with
    | .error _ => none
    | .ok data =>
        match plexNav data with
        | .error _ => none
        | .ok o => o

/-! ### Classifier lemmas -/

lemma classifyWith_pos {bands : List (ℚ × ℚ)} {r : ℚ}
    (h : ∃ b ∈ bands, b.1 ≤ r ∧ r ≤ b.2) : classifyWith bands r = r := by
  unfold classifyWith
  obtain ⟨b, hb, h1, h2⟩ := h
  have : (bands.find? (fun b => decide (b.1 ≤ r) && decide (r ≤ b.2))).isSome := by
    rw [List.find?_isSome]
    exact ⟨b, hb, by simp [h1, h2]⟩
  obtain ⟨c, hc⟩ := Option.isSome_iff_exists.mp this
  rw [hc]

lemma classifyWith_neg {bands : List (ℚ × ℚ)} {r : ℚ}
    (h : ¬ ∃ b ∈ bands, b.1 ≤ r ∧ r ≤ b.2) : classifyWith bands r = defaultRatio := by
  unfold classifyWith
  have : bands.find? (fun b => decide (b.1 ≤ r) && decide (r ≤ b.2)) = none := by
    rw [List.find?_eq_none]
    intro b hb hp
    exact h ⟨b, hb, by simpa using hp⟩
  rw [this]

lemma classifyWith_ite (bands : List (ℚ × ℚ)) (r : ℚ) :
    classifyWith bands r =
      if ∃ b ∈ bands, b.1 ≤ r ∧ r ≤ b.2 then r else defaultRatio := by
  by_cases h : ∃ b ∈ bands, b.1 ≤ r ∧ r ≤ b.2
  · rw [if_pos h, classifyWith_pos h]
  · rw [if_neg h, classifyWith_neg h]

lemma defaultRatio_mem_band :
    ∃ b ∈ validRatios, b.1 ≤ defaultRatio ∧ defaultRatio ≤ b.2 := by
  refine ⟨(175 / 100, 179 / 100), by simp [validRatios], ?_, ?_⟩ <;>
    norm_num [defaultRatio]

lemma classifyRatio_cases (r : ℚ) :
    classifyRatio r = defaultRatio ∨
      ∃ b ∈ validRatios, b.1 ≤ classifyRatio r ∧ classifyRatio r ≤ b.2 := by
  rw [classifyRatio, classifyWith_ite]
  by_cases h : ∃ b ∈ validRatios, b.1 ≤ r ∧ r ≤ b.2
  · rw [if_pos h]; exact Or.inr h
  · rw [if_neg h]; exact Or.inl rfl

lemma validRatios_bounds {b : ℚ × ℚ} (hb : b ∈ validRatios) :
    175 / 100 ≤ b.1 ∧ b.2 ≤ 240 / 100 := by
  simp only [validRatios, List.mem_cons, List.not_mem_nil, or_false] at hb
  rcases hb with h | h | h | h <;> subst h <;> constructor <;> norm_num

lemma classifyRatio_bounds (r : ℚ) :
    175 / 100 ≤ classifyRatio r ∧ classifyRatio r ≤ 240 / 100 := by
  rcases classifyRatio_cases r with h | ⟨b, hb, h1, h2⟩
  · rw [h]; constructor <;> norm_num [defaultRatio]
  · obtain ⟨hb1, hb2⟩ := validRatios_bounds hb
    exact ⟨le_trans hb1 h1, le_trans h2 hb2⟩

/-- Claim C6: the classifier returns `r` unchanged iff `r` lies in one
of the four inclusive bands, returns the default constant 1.76
otherwise; the four bands are pairwise non-overlapping, and the result
does not depend on the order in which the bands are checked. -/
theorem classifyRatio_spec (r : ℚ) :
    (classifyRatio r = r ↔ ∃ b ∈ validRatios, b.1 ≤ r ∧ r ≤ b.2) ∧
    ((¬ ∃ b ∈ validRatios, b.1 ≤ r ∧ r ≤ b.2) → classifyRatio r = defaultRatio) ∧
    List.Pairwise (fun a b : ℚ × ℚ => a.2 < b.1 ∨ b.2 < a.1) validRatios ∧
    (∀ l : List (ℚ × ℚ), l.Perm validRatios → classifyWith l r = classifyRatio r) := by
  refine ⟨⟨fun he => ?_, fun h => classifyWith_pos h⟩,
    fun h => classifyWith_neg h, ?_, fun l hl => ?_⟩
  · by_cases h : ∃ b ∈ validRatios, b.1 ≤ r ∧ r ≤ b.2
    · exact h
    · rw [classifyRatio, classifyWith_neg h] at he
      rw [← he] at h ⊢
      exact absurd defaultRatio_mem_band h
  · unfold validRatios
    refine List.Pairwise.cons (fun b hb => ?_) (List.Pairwise.cons (fun b hb => ?_)
      (List.Pairwise.cons (fun b hb => ?_) (List.pairwise_singleton _ _)))
    all_goals simp only [List.mem_cons, List.not_mem_nil, or_false] at hb
    · rcases hb with h | h | h <;> subst h <;> norm_num
    · rcases hb with h | h <;> subst h <;> norm_num
    · subst hb; norm_num
  · rw [classifyRatio, classifyWith_ite, classifyWith_ite]
    refine if_congr ?_ rfl rfl
    exact ⟨fun ⟨b, hb, h⟩ => ⟨b, hl.mem_iff.mp hb, h⟩,
      fun ⟨b, hb, h⟩ => ⟨b, hl.mem_iff.mpr hb, h⟩⟩

/-- Witness for C6: the order-independence and no-band conjuncts applied
at concrete inputs (ratio 1.33, table reversed). -/
theorem classifyRatio_spec_witness :
    classifyRatio (133 / 100) = defaultRatio ∧
    classifyWith validRatios.reverse (133 / 100) = classifyRatio (133 / 100) := by
  constructor
  · refine (classifyRatio_spec (133 / 100)).2.1 ?_
    rintro ⟨b, hb, h1, h2⟩
    simp only [validRatios, List.mem_cons, List.not_mem_nil, or_false] at hb
    rcases hb with h | h | h | h <;> subst h <;> norm_num at h1 h2
  · exact (classifyRatio_spec (133 / 100)).2.2.2 validRatios.reverse
      (validRatios.reverse_perm)

/-- Claim C5: the sampled index list equals the source formula (all of
`0..frame_count-1` when `frame_count ≤ sample_frames`, otherwise
`min(frame_count-1, i*step)` with `step = max(1, frame_count // sample_frames)`),
is non-decreasing, stays within `[0, frame_count-1]` and contains 0. -/
theorem sampleIndices_spec (frame_count sample_frames : Int)
    (hfc : 0 < frame_count) (hsf : 0 < sample_frames) :
    ∃ l, sampleIndices frame_count sample_frames = .ok l ∧
      l = (if frame_count ≤ sample_frames then
            (List.range frame_count.toNat).map (fun i : Nat => (i : Int))
          else
            (List.range sample_frames.toNat).map
              (fun i : Nat => min (frame_count - 1)
                ((i : Int) * max 1 (Int.fdiv frame_count sample_frames)))) ∧
      List.Pairwise (· ≤ ·) l ∧
      (∀ x ∈ l, 0 ≤ x ∧ x ≤ frame_count - 1) ∧
      (0 : Int) ∈ l := by
  by_cases hle : frame_count ≤ sample_frames
  · refine ⟨_, by rw [sampleIndices, if_pos hle], by rw [if_pos hle], ?_, ?_, ?_⟩
    · exact List.Pairwise.map _ (fun a b h => by exact_mod_cast le_of_lt h)
        (List.pairwise_lt_range _)
    · intro x hx
      simp only [List.mem_map, List.mem_range] at hx
      obtain ⟨i, hi, rfl⟩ := hx
      have h1 : (i : Int) < frame_count := Int.lt_toNat.mp hi
      exact ⟨Int.natCast_nonneg i, by omega⟩
    · simp only [List.mem_map, List.mem_range]
      exact ⟨0, by omega, rfl⟩
  · have hsf0 : sample_frames ≠ 0 := by omega
    have hstep : (1 : Int) ≤ max 1 (Int.fdiv frame_count sample_frames) :=
      le_max_left _ _
    refine ⟨_, by rw [sampleIndices, if_neg hle, if_neg hsf0],
      by rw [if_neg hle], ?_, ?_, ?_⟩
    · refine List.Pairwise.map _ (fun a b h => ?_) (List.pairwise_lt_range _)
      refine min_le_min le_rfl ?_
      have hab : (a : Int) ≤ (b : Int) := by exact_mod_cast le_of_lt h
      exact mul_le_mul_of_nonneg_right hab (by omega)
    · intro x hx
      simp only [List.mem_map, List.mem_range] at hx
      obtain ⟨i, hi, rfl⟩ := hx
      have h0 : (0 : Int) ≤ (i : Int) * max 1 (Int.fdiv frame_count sample_frames) :=
        mul_nonneg (Int.natCast_nonneg i) (by omega)
      exact ⟨le_min (by omega) h0, min_le_left _ _⟩
    · simp only [List.mem_map, List.mem_range]
      refine ⟨0, by omega, ?_⟩
      rw [Nat.cast_zero, zero_mul]
      omega

/-- Witness for C5: the claim's concrete scenario
`frame_count = 100`, `sample_frames = 8`. -/
theorem sampleIndices_spec_witness :
    ∃ l, sampleIndices 100 8 = .ok l ∧ List.Pairwise (· ≤ ·) l ∧
      (∀ x ∈ l, 0 ≤ x ∧ x ≤ 99) ∧ (0 : Int) ∈ l := by
  obtain ⟨l, h1, _, h3, h4, h5⟩ :=
    sampleIndices_spec 100 8 (by norm_num) (by norm_num)
  exact ⟨l, h1, h3, fun x hx => by have := h4 x hx; omega, h5⟩

/-! ### Shape of the main function's result -/

lemma run_eq_early (env : VideoEnv) (fp : String) (sf th : Int)
    (h1 : fp = "" ∨ env.pathExists = false) :
    calculate_visible_height_run env fp sf th = ⟨defaultRatio, false, false⟩ := by
  unfold calculate_visible_height_run
  rw [if_pos h1]

lemma run_eq_noopen (env : VideoEnv) (fp : String) (sf th : Int)
    (h1 : ¬(fp = "" ∨ env.pathExists = false)) (h2 : env.opens = false) :
    calculate_visible_height_run env fp sf th = ⟨defaultRatio, false, false⟩ := by
  unfold calculate_visible_height_run
  rw [if_neg h1, if_pos h2]

lemma run_eq_error (env : VideoEnv) (fp : String) (sf th : Int) (e : String)
    (h1 : ¬(fp = "" ∨ env.pathExists = false)) (h2 : ¬env.opens = false)
    (hb : calcBody env sf th = .error e) :
    calculate_visible_height_run env fp sf th = ⟨defaultRatio, true, false⟩ := by
  unfold calculate_visible_height_run
  rw [if_neg h1, if_neg h2, hb]

lemma run_eq_ok (env : VideoEnv) (fp : String) (sf th : Int) (st : BoxState)
    (h1 : ¬(fp = "" ∨ env.pathExists = false)) (h2 : ¬env.opens = false)
    (hb : calcBody env sf th = .ok st) :
    calculate_visible_height_run env fp sf th =
      if st.found_any = false ∨ st.min_x = none then ⟨defaultRatio, true, true⟩
      else if visH st ≤ 0 ∨ visW st ≤ 0 then ⟨defaultRatio, true, true⟩
      else ⟨classifyRatio (round2 ((visW st : ℚ) / (visH st : ℚ))), true, true⟩ := by
  unfold calculate_visible_height_run
  rw [if_neg h1, if_neg h2, hb]

lemma run_ratio_cases (env : VideoEnv) (fp : String) (sf th : Int) :
    calculate_visible_height env fp sf th = defaultRatio ∨
      ∃ st, calcBody env sf th = .ok st ∧
        calculate_visible_height env fp sf th =
          classifyRatio (round2 ((visW st : ℚ) / (visH st : ℚ))) := by
  unfold calculate_visible_height
  by_cases h1 : fp = "" ∨ env.pathExists = false
  · rw [run_eq_early env fp sf th h1]; exact Or.inl rfl
  by_cases h2 : env.opens = false
  · rw [run_eq_noopen env fp sf th h1 h2]; exact Or.inl rfl
  cases hb : calcBody env sf th with
  | error e => rw [run_eq_error env fp sf th e h1 h2 hb]; exact Or.inl rfl
  | ok st =>
    rw [run_eq_ok env fp sf th st h1 h2 hb]
    by_cases h3 : st.found_any = false ∨ st.min_x = none
    · rw [if_pos h3]; exact Or.inl rfl
    rw [if_neg h3]
    by_cases h4 : visH st ≤ 0 ∨ visW st ≤ 0
    · rw [if_pos h4]; exact Or.inl rfl
    · rw [if_neg h4]; exact Or.inr ⟨st, rfl, rfl⟩

/-- Claim C10: every value `calculate_visible_height` returns is either
exactly the default constant 1.76 or lies in one of the four bands, and
in particular always lies in the closed interval [1.75, 2.40]. -/
theorem output_range_invariant (env : VideoEnv) (fp : String) (sf th : Int) :
    (calculate_visible_height env fp sf th = defaultRatio ∨
      ∃ b ∈ validRatios, b.1 ≤ calculate_visible_height env fp sf th ∧
        calculate_visible_height env fp sf th ≤ b.2) ∧
    175 / 100 ≤ calculate_visible_height env fp sf th ∧
    calculate_visible_height env fp sf th ≤ 240 / 100 := by
  rcases run_ratio_cases env fp sf th with h | ⟨st, _, h⟩
  · rw [h]
    refine ⟨Or.inl rfl, ?_, ?_⟩ <;> norm_num [defaultRatio]
  · rw [h]
    exact ⟨(classifyRatio_cases _).imp id id,
      (classifyRatio_bounds _).1, (classifyRatio_bounds _).2⟩

lemma classifyRatio_self_or_default (r : ℚ) :
    classifyRatio r = r ∨ classifyRatio r = defaultRatio := by
  rw [classifyRatio, classifyWith_ite]
  by_cases h : ∃ b ∈ validRatios, b.1 ≤ r ∧ r ≤ b.2
  · rw [if_pos h]; exact Or.inl rfl
  · rw [if_neg h]; exact Or.inr rfl

/-- Claim C1: `calculate_visible_height` never raises — in the embedding
it is a total function into ℚ, with every primitive failure modelled in
`Except` and caught — and on every failure mode (empty path, missing
file, unopenable capture, a decoding exception, no frame contributing
content pixels, degenerate geometry) it returns the default ratio 1.76;
in all cases the result is an integer multiple of 1/100, i.e. a finite
value rounded to 2 decimal places. -/
theorem calc_total_default_spec (env : VideoEnv) (fp : String) (sf th : Int) :
    (∃ n : ℤ, calculate_visible_height env fp sf th = (n : ℚ) / 100) ∧
    (fp = "" → calculate_visible_height env fp sf th = defaultRatio) ∧
    (env.pathExists = false → calculate_visible_height env fp sf th = defaultRatio) ∧
    (env.opens = false → calculate_visible_height env fp sf th = defaultRatio) ∧
    (∀ e, calcBody env sf th = .error e →
      calculate_visible_height env fp sf th = defaultRatio) ∧
    (∀ st, calcBody env sf th = .ok st → st.found_any = false →
      calculate_visible_height env fp sf th = defaultRatio) ∧
    (∀ st, calcBody env sf th = .ok st → (visH st ≤ 0 ∨ visW st ≤ 0) →
      calculate_visible_height env fp sf th = defaultRatio) := by
  refine ⟨?_, ?_, ?_, ?_, ?_, ?_, ?_⟩
  · rcases run_ratio_cases env fp sf th with h | ⟨st, _, h⟩
    · exact ⟨176, by rw [h]; norm_num [defaultRatio]⟩
    · rcases classifyRatio_self_or_default
        (round2 ((visW st : ℚ) / (visH st : ℚ))) with hc | hc
      · exact ⟨round (((visW st : ℚ) / (visH st : ℚ)) * 100), by rw [h, hc]; rfl⟩
      · exact ⟨176, by rw [h, hc]; norm_num [defaultRatio]⟩
  · intro h
    unfold calculate_visible_height
    rw [run_eq_early env fp sf th (Or.inl h)]
  · intro h
    unfold calculate_visible_height
    rw [run_eq_early env fp sf th (Or.inr h)]
  · intro h
    unfold calculate_visible_height
    by_cases h1 : fp = "" ∨ env.pathExists = false
    · rw [run_eq_early env fp sf th h1]
    · rw [run_eq_noopen env fp sf th h1 h]
  · intro e he
    unfold calculate_visible_height
    by_cases h1 : fp = "" ∨ env.pathExists = false
    · rw [run_eq_early env fp sf th h1]
    by_cases h2 : env.opens = false
    · rw [run_eq_noopen env fp sf th h1 h2]
    · rw [run_eq_error env fp sf th e h1 h2 he]
  · intro st hst hf
    unfold calculate_visible_height
    by_cases h1 : fp = "" ∨ env.pathExists = false
    · rw [run_eq_early env fp sf th h1]
    by_cases h2 : env.opens = false
    · rw [run_eq_noopen env fp sf th h1 h2]
    · rw [run_eq_ok env fp sf th st h1 h2 hst, if_pos (Or.inl hf)]
  · intro st hst hdim
    unfold calculate_visible_height
    by_cases h1 : fp = "" ∨ env.pathExists = false
    · rw [run_eq_early env fp sf th h1]
    by_cases h2 : env.opens = false
    · rw [run_eq_noopen env fp sf th h1 h2]
    rw [run_eq_ok env fp sf th st h1 h2 hst]
    by_cases h3 : st.found_any = false ∨ st.min_x = none
    · rw [if_pos h3]
    · rw [if_neg h3, if_pos hdim]

/-- An environment for exercising the failure branches of C1:
the path does not exist and nothing opens. -/
def envC1 : VideoEnv := ⟨false, false, 0, fun _ => .ok none, fun _ => .ok none⟩

/-- Witness for C1: concrete empty-path call returns the default, and
the result is always a multiple of 1/100. -/
theorem calc_total_default_spec_witness :
    calculate_visible_height envC1 ("") 8 16 = defaultRatio ∧
    (∃ n : ℤ, calculate_visible_height envC1 ("x") 8 16 = (n : ℚ) / 100) :=
  ⟨(calc_total_default_spec envC1 ("") 8 16).2.1 rfl,
   (calc_total_default_spec envC1 ("x") 8 16).1⟩

/-! ### C9: the Plex lookup -/

lemma plex_eq_ok (env : PlexEnv) (base tok : String)
    (h : ¬(base = "" ∨ tok = "")) (d : Json) (hd : env.response = .ok d) :
    get_file_path_from_plex env base tok =
      (match plexNav d with | .error _ => none | .ok o => o) := by
  unfold get_file_path_from_plex
  rw [if_neg h, hd]

/-- Claim C9: `get_file_path_from_plex` never raises — in the embedding
it is a total function into `Option`, HTTP/parse failures and response
navigation exceptions being modelled in `Except` and caught — and it
returns `none` on every failure (missing base URL or token, request
error, navigation exception, absent or falsy file field) and the file
value found in the response on success. -/
theorem plex_lookup_spec (env : PlexEnv) (base tok : String) :
    (base = "" → get_file_path_from_plex env base tok = none) ∧
    (tok = "" → get_file_path_from_plex env base tok = none) ∧
    (∀ e, env.response = .error e → get_file_path_from_plex env base tok = none) ∧
    (∀ d e, env.response = .ok d → plexNav d = .error e →
      get_file_path_from_plex env base tok = none) ∧
    (∀ d, env.response = .ok d → plexNav d = .ok none →
      get_file_path_from_plex env base tok = none) ∧
    (∀ d v, base ≠ "" → tok ≠ "" → env.response = .ok d → plexNav d = .ok (some v) →
      get_file_path_from_plex env base tok = some v) := by
  refine ⟨?_, ?_, ?_, ?_, ?_, ?_⟩
  · intro h
    unfold get_file_path_from_plex
    rw [if_pos (Or.inl h)]
  · intro h
    unfold get_file_path_from_plex
    rw [if_pos (Or.inr h)]
  · intro e he
    unfold get_file_path_from_plex
    by_cases h : base = "" ∨ tok = ""
    · rw [if_pos h]
    · rw [if_neg h, he]
  · intro d e hd hn
    by_cases h : base = "" ∨ tok = ""
    · unfold get_file_path_from_plex
      rw [if_pos h]
    · rw [plex_eq_ok env base tok h d hd, hn]
  · intro d hd hn
    by_cases h : base = "" ∨ tok = ""
    · unfold get_file_path_from_plex
      rw [if_pos h]
    · rw [plex_eq_ok env base tok h d hd, hn]
  · intro d v hbase htok hd hn
    have h : ¬(base = "" ∨ tok = "") := by
      rintro (h | h)
      · exact hbase h
      · exact htok h
    rw [plex_eq_ok env base tok h d hd, hn]

/-- A well-formed Plex response document holding `s` as the file path at
`MediaContainer → Metadata[0] → Media[0] → Part[0] → file`. -/
def plexDoc (s : String) : Json :=
  .obj [(("MediaContainer"),
    .obj [(("Metadata"),
      .arr [.obj [(("Media"),
        .arr [.obj [(("Part"),
          .arr [.obj [(("file"), .str s)]])]])]])])]

/-- Witness for C9: the success conjunct applied to a concrete
well-formed response, and a failure conjunct at a missing token. -/
theorem plex_lookup_spec_witness :
    get_file_path_from_plex ⟨.ok (plexDoc ("/movies/a.mkv"))⟩
        ("http://plex:32400") ("tok") = some (.str ("/movies/a.mkv")) ∧
    get_file_path_from_plex ⟨.ok (plexDoc ("/movies/a.mkv"))⟩
        ("http://plex:32400") ("") = none :=
  ⟨(plex_lookup_spec _ _ _).2.2.2.2.2 (plexDoc ("/movies/a.mkv"))
      (.str ("/movies/a.mkv")) (by decide) (by decide) rfl (by rfl),
   (plex_lookup_spec _ _ _).2.1 rfl⟩

/-! ### C3: resilience to failed reads -/

lemma runIndexed_cons (env : VideoEnv) (th : Int) (i : Int) (rest : List Int)
    (st : BoxState) :
    runIndexed env th (i :: rest) st =
      match env.readAt i with
      | .error e => .error e
      | .ok none => runIndexed env th rest st
      | .ok (some f) => runIndexed env th rest (processFrame th st f) := rfl

lemma runSeq_succ (env : VideoEnv) (th : Int) (fuel pos : Nat) (st : BoxState) :
    runSeq env th (fuel + 1) pos st =
      match env.readSeq pos with
      | .error e => .error e
      | .ok none => .ok st
      | .ok (some f) => runSeq env th fuel (pos + 1) (processFrame th st f) := rfl

/-- The frames an indexed pass actually decodes: reads that fail
(`ret` false / empty frame) contribute nothing. -/
def goodFrames (env : VideoEnv) (indices : List Int) : List Frame :=
  indices.filterMap (fun i =>
    match env.readAt i with
    | .ok (some f) => some f
    | _ => none)

/-- A full-content frame of 5 rows × 12 columns (visible ratio 2.4). -/
def frameC3 : Frame := ⟨List.replicate 5 (List.replicate 12 255)⟩

/-- Sequential-mode environment whose first read fails while every later
read decodes a full-content frame. -/
def envC3 : VideoEnv :=
  ⟨true, true, 0, fun _ => .ok none,
   fun k => if k = 0 then .ok none else .ok (some frameC3)⟩

/-- The same environment with the first read succeeding as well. -/
def envC3b : VideoEnv :=
  ⟨true, true, 0, fun _ => .ok none, fun _ => .ok (some frameC3)⟩

set_option maxRecDepth 4000 in
/-- Counterexample to C3: in sequential mode a failed read is not
skipped — it `break`s the loop (line 143). With the first sequential
read failing and every later read decoding a frame full of content
pixels, the sampling stops at once: nothing is accumulated and the call
returns the default, whereas the very same later frames would have
produced 2.4 (as the run with the first read succeeding shows). -/
theorem seq_failed_read_aborts :
    envC3.readSeq 1 = .ok (some frameC3) ∧
    contentCoords frameC3 16 ≠ [] ∧
    calcBody envC3 8 16 = .ok initState ∧
    calculate_visible_height envC3 ("f") 8 16 = defaultRatio ∧
    calculate_visible_height envC3b ("f") 8 16 = 12 / 5 := by
  refine ⟨rfl, by decide, rfl, rfl, ?_⟩
  have h : calculate_visible_height envC3b ("f") 8 16 =
      classifyRatio (round2 ((((12 : Int)) : ℚ) / (((5 : Int)) : ℚ))) := rfl
  rw [h]
  norm_num [round2, round_eq, classifyRatio, classifyWith, validRatios, List.find?]

/-- Amended C3: in the indexed mode a failed or empty read is skipped
and every remaining sampled index is still processed (the run equals the
fold over exactly the successfully decoded frames); in the sequential
fallback a failed read ends the sampling loop, returning the state
accumulated so far (the whole operation is not aborted, but later frames
are not read). -/
theorem failed_reads_skipped (env : VideoEnv) (th : Int) :
    (∀ indices st, (∀ i ∈ indices, ∀ e, env.readAt i ≠ .error e) →
      runIndexed env th indices st =
        .ok ((goodFrames env indices).foldl (processFrame th) st)) ∧
    (∀ fuel pos st, env.readSeq pos = .ok none →
      runSeq env th (fuel + 1) pos st = .ok st) := by
  constructor
  · intro indices
    induction indices with
    | nil => intro st _; rfl
    | cons i rest ih =>
      intro st h
      rw [runIndexed_cons]
      cases hread : env.readAt i with
      | error e => exact absurd hread (h i (by simp) e)
      | ok o =>
        cases o with
        | none =>
          simp only [goodFrames, List.filterMap_cons, hread]
          exact ih st (fun j hj e => h j (by simp [hj]) e)
        | some f =>
          simp only [goodFrames, List.filterMap_cons, hread, List.foldl_cons]
          exact ih (processFrame th st f) (fun j hj e => h j (by simp [hj]) e)
  · intro fuel pos st hp
    rw [runSeq_succ, hp]

/-- Environment for the C3 witness: index 0 fails (`ret` false), index 1
decodes; the first sequential read fails. -/
def envC3w : VideoEnv :=
  ⟨true, true, 2,
   fun i => if i = 0 then .ok none else .ok (some frameC3),
   fun _ => .ok none⟩

/-- Witness for (amended) C3 at a concrete environment: the indexed run
skips the failed index 0 and still folds in the frame read at index 1;
the sequential run returns the accumulated state when a read fails. -/
theorem failed_reads_skipped_witness :
    runIndexed envC3w 16 [0, 1] initState =
      .ok ((goodFrames envC3w [0, 1]).foldl (processFrame 16) initState) ∧
    runSeq envC3w 16 8 0 initState = .ok initState := by
  constructor
  · refine (failed_reads_skipped envC3w 16).1 [0, 1] initState ?_
    intro i hi e h
    fin_cases hi <;> simp [envC3w] at h
  · exact (failed_reads_skipped envC3w 16).2 7 0 initState rfl

/-! ### C4: release of the capture handle -/

/-- Environment in which every indexed read raises a decoding
exception. -/
def envC4 : VideoEnv :=
  ⟨true, true, 1, fun _ => .error ("decode failure"), fun _ => .ok none⟩

/-- Counterexample to C4: when a decoding exception is raised after the
capture was successfully opened, the `except` handler of line 192
returns the default without `cap.release()` ever running (the source
has no `finally`): the call ends with the handle still open. -/
theorem exception_leaves_handle_open :
    (calculate_visible_height_run envC4 ("f") 8 16).opened = true ∧
    (calculate_visible_height_run envC4 ("f") 8 16).released = false ∧
    (calculate_visible_height_run envC4 ("f") 8 16).ratio = defaultRatio :=
  ⟨rfl, rfl, rfl⟩

/-- Amended C4: the capture handle is released on every exit path that
does not go through the exception handler — on every successful body the
handle, once opened, is released before returning — but when the body
raises (a decoding exception is caught), the function returns with the
handle unreleased; when the capture never opened there is nothing to
release. -/
theorem release_on_normal_paths (env : VideoEnv) (fp : String) (sf th : Int) :
    (∀ st, calcBody env sf th = .ok st →
      (calculate_visible_height_run env fp sf th).opened = true →
      (calculate_visible_height_run env fp sf th).released = true) ∧
    (∀ e, calcBody env sf th = .error e →
      (calculate_visible_height_run env fp sf th).released = false) ∧
    ((calculate_visible_height_run env fp sf th).opened = true ↔
      (fp ≠ "" ∧ env.pathExists = true ∧ env.opens = true)) := by
  have hsplit : ∀ st, calcBody env sf th = .ok st →
      ¬(fp = "" ∨ env.pathExists = false) → ¬env.opens = false →
      (calculate_visible_height_run env fp sf th).released = true := by
    intro st hst h1 h2
    rw [run_eq_ok env fp sf th st h1 h2 hst]
    by_cases h3 : st.found_any = false ∨ st.min_x = none
    · rw [if_pos h3]
    · rw [if_neg h3]
      by_cases h4 : visH st ≤ 0 ∨ visW st ≤ 0
      · rw [if_pos h4]
      · rw [if_neg h4]
  refine ⟨?_, ?_, ?_⟩
  · intro st hst hop
    by_cases h1 : fp = "" ∨ env.pathExists = false
    · rw [run_eq_early env fp sf th h1] at hop
      exact absurd hop (by simp)
    by_cases h2 : env.opens = false
    · rw [run_eq_noopen env fp sf th h1 h2] at hop
      exact absurd hop (by simp)
    · exact hsplit st hst h1 h2
  · intro e he
    by_cases h1 : fp = "" ∨ env.pathExists = false
    · rw [run_eq_early env fp sf th h1]
    by_cases h2 : env.opens = false
    · rw [run_eq_noopen env fp sf th h1 h2]
    · rw [run_eq_error env fp sf th e h1 h2 he]
  · constructor
    · intro hop
      by_cases h1 : fp = "" ∨ env.pathExists = false
      · rw [run_eq_early env fp sf th h1] at hop
        exact absurd hop (by simp)
      by_cases h2 : env.opens = false
      · rw [run_eq_noopen env fp sf th h1 h2] at hop
        exact absurd hop (by simp)
      · push_neg at h1
        refine ⟨h1.1, ?_, ?_⟩
        · cases hpe : env.pathExists
          · exact absurd hpe h1.2
          · rfl
        · cases hop2 : env.opens
          · exact absurd hop2 h2
          · rfl
    · rintro ⟨hfp, hpe, hop⟩
      have h1 : ¬(fp = "" ∨ env.pathExists = false) := by
        rintro (h | h)
        · exact hfp h
        · rw [hpe] at h; exact absurd h (by simp)
      have h2 : ¬env.opens = false := by
        simp [hop]
      cases hb : calcBody env sf th with
      | error e => rw [run_eq_error env fp sf th e h1 h2 hb]
      | ok st =>
        rw [run_eq_ok env fp sf th st h1 h2 hb]
        by_cases h3 : st.found_any = false ∨ st.min_x = none
        · rw [if_pos h3]
        · rw [if_neg h3]
          by_cases h4 : visH st ≤ 0 ∨ visW st ≤ 0
          · rw [if_pos h4]
          · rw [if_neg h4]

/-- Environment for the C4 witness: opens, one index whose read returns
`ret` false, so the body completes without an exception. -/
def envC4b : VideoEnv :=
  ⟨true, true, 1, fun _ => .ok none, fun _ => .ok none⟩

/-- Witness for (amended) C4: on a concrete exception-free run the
handle is released, and on the concrete raising environment it is not. -/
theorem release_on_normal_paths_witness :
    (calculate_visible_height_run envC4b ("f") 8 16).released = true ∧
    (calculate_visible_height_run envC4 ("f") 8 16).released = false :=
  ⟨(release_on_normal_paths envC4b ("f") 8 16).1 initState rfl rfl,
   (release_on_normal_paths envC4 ("f") 8 16).2.1 ("decode failure") rfl⟩

/-! ### Extremes of nonempty integer collections -/

lemma intsMin_cons (x y : Int) (ys : List Int) :
    intsMin x (y :: ys) = intsMin (min x y) ys := rfl

lemma intsMax_cons (x y : Int) (ys : List Int) :
    intsMax x (y :: ys) = intsMax (max x y) ys := rfl

lemma intsMin_le_init (xs : List Int) : ∀ x, intsMin x xs ≤ x := by
  induction xs with
  | nil => intro x; exact le_refl x
  | cons y ys ih =>
    intro x
    rw [intsMin_cons]
    exact le_trans (ih (min x y)) (min_le_left x y)

lemma intsMin_le_of_mem (xs : List Int) : ∀ x a, a ∈ xs → intsMin x xs ≤ a := by
  induction xs with
  | nil => intro x a ha; exact absurd ha (List.not_mem_nil a)
  | cons y ys ih =>
    intro x a ha
    rw [intsMin_cons]
    rcases List.mem_cons.mp ha with h | h
    · subst h
      exact le_trans (intsMin_le_init ys (min x a)) (min_le_right x a)
    · exact ih (min x y) a h

lemma intsMin_eq_init_or_mem (xs : List Int) :
    ∀ x, intsMin x xs = x ∨ intsMin x xs ∈ xs := by
  induction xs with
  | nil => intro x; exact Or.inl rfl
  | cons y ys ih =>
    intro x
    rw [intsMin_cons]
    rcases ih (min x y) with h | h
    · rcases min_cases x y with ⟨he, _⟩ | ⟨he, _⟩
      · exact Or.inl (h.trans he)
      · exact Or.inr (List.mem_cons.mpr (Or.inl (h.trans he)))
    · exact Or.inr (List.mem_cons.mpr (Or.inr h))

lemma le_intsMax_init (xs : List Int) : ∀ x, x ≤ intsMax x xs := by
  induction xs with
  | nil => intro x; exact le_refl x
  | cons y ys ih =>
    intro x
    rw [intsMax_cons]
    exact le_trans (le_max_left x y) (ih (max x y))

lemma le_intsMax_of_mem (xs : List Int) : ∀ x a, a ∈ xs → a ≤ intsMax x xs := by
  induction xs with
  | nil => intro x a ha; exact absurd ha (List.not_mem_nil a)
  | cons y ys ih =>
    intro x a ha
    rw [intsMax_cons]
    rcases List.mem_cons.mp ha with h | h
    · subst h
      exact le_trans (le_max_right x a) (le_intsMax_init ys (max x a))
    · exact ih (max x y) a h

lemma intsMax_eq_init_or_mem (xs : List Int) :
    ∀ x, intsMax x xs = x ∨ intsMax x xs ∈ xs := by
  induction xs with
  | nil => intro x; exact Or.inl rfl
  | cons y ys ih =>
    intro x
    rw [intsMax_cons]
    rcases ih (max x y) with h | h
    · rcases max_cases x y with ⟨he, _⟩ | ⟨he, _⟩
      · exact Or.inl (h.trans he)
      · exact Or.inr (List.mem_cons.mpr (Or.inl (h.trans he)))
    · exact Or.inr (List.mem_cons.mpr (Or.inr h))

/-! ### Membership in the content-coordinate list -/

lemma mem_rowContent {th : Int} {y : Nat} :
    ∀ {row : List Nat} {x : Nat} {p : Nat × Nat}, p ∈ rowContent th y x row →
      p.2 = y ∧ x ≤ p.1 ∧ p.1 < x + row.length := by
  intro row
  induction row with
  | nil => intro x p hp; exact absurd hp (List.not_mem_nil p)
  | cons v vs ih =>
    intro x p hp
    rw [rowContent] at hp
    by_cases hv : th < (v : Int)
    · rw [if_pos hv] at hp
      rcases List.mem_cons.mp hp with h | h
      · subst h; exact ⟨rfl, le_refl x, by simp⟩
      · obtain ⟨h1, h2, h3⟩ := ih h
        exact ⟨h1, by omega, by simp; omega⟩
    · rw [if_neg hv] at hp
      obtain ⟨h1, h2, h3⟩ := ih hp
      exact ⟨h1, by omega, by simp; omega⟩

lemma rowContent_mem_of {th : Int} {y : Nat} :
    ∀ {row : List Nat} {x i : Nat}, i < row.length →
      (∀ v ∈ row, th < (v : Int)) → (x + i, y) ∈ rowContent th y x row := by
  intro row
  induction row with
  | nil => intro x i hi; simp at hi
  | cons v vs ih =>
    intro x i hi hb
    have hv : th < (v : Int) := hb v (List.mem_cons_self v vs)
    rw [rowContent, if_pos hv]
    cases i with
    | zero => exact List.mem_cons.mpr (Or.inl (by simp))
    | succ j =>
      refine List.mem_cons.mpr (Or.inr ?_)
      have := ih (x := x + 1) (i := j) (by simpa using hi)
        (fun w hw => hb w (List.mem_cons_of_mem v hw))
      have harith : x + 1 + j = x + (j + 1) := by omega
      rwa [harith] at this

lemma mem_framesContent {th : Int} :
    ∀ {rows : List (List Nat)} {y : Nat} {p : Nat × Nat},
      p ∈ framesContent th y rows →
      ∃ j, ∃ hj : j < rows.length, p.2 = y + j ∧
        p.1 < (rows.get ⟨j, hj⟩).length := by
  intro rows
  induction rows with
  | nil => intro y p hp; exact absurd hp (List.not_mem_nil p)
  | cons row rest ih =>
    intro y p hp
    rw [framesContent] at hp
    rcases List.mem_append.mp hp with h | h
    · obtain ⟨h1, _, h3⟩ := mem_rowContent h
      exact ⟨0, by simp, by omega, by simpa using h3⟩
    · obtain ⟨j, hj, h1, h2⟩ := ih h
      exact ⟨j + 1, by simpa using hj, by omega, by simpa using h2⟩

lemma framesContent_mem_of {th : Int} :
    ∀ {rows : List (List Nat)} {y j i : Nat} (hj : j < rows.length),
      i < (rows.get ⟨j, hj⟩).length →
      (∀ v ∈ rows.get ⟨j, hj⟩, th < (v : Int)) →
      (i, y + j) ∈ framesContent th y rows := by
  intro rows
  induction rows with
  | nil => intro y j i hj; simp at hj
  | cons row rest ih =>
    intro y j i hj hi hb
    rw [framesContent]
    cases j with
    | zero =>
      refine List.mem_append.mpr (Or.inl ?_)
      have := rowContent_mem_of (y := y) (x := 0) (i := i)
        (by simpa using hi) (by simpa using hb)
      simpa using this
    | succ k =>
      refine List.mem_append.mpr (Or.inr ?_)
      have := ih (y := y + 1) (j := k) (i := i) (by simpa using hj)
        (by simpa using hi) (by simpa using hb)
      have harith : y + 1 + k = y + (k + 1) := by omega
      rwa [harith] at this

lemma mem_contentCoords {f : Frame} {th : Int} {p : Nat × Nat}
    (hp : p ∈ contentCoords f th) :
    ∃ j, ∃ hj : j < f.pixels.length, p.2 = j ∧
      p.1 < (f.pixels.get ⟨j, hj⟩).length := by
  obtain ⟨j, hj, h1, h2⟩ := mem_framesContent hp
  exact ⟨j, hj, by omega, h2⟩

lemma contentCoords_mem_of {f : Frame} {th : Int} {j i : Nat}
    (hj : j < f.pixels.length) (hi : i < (f.pixels.get ⟨j, hj⟩).length)
    (hb : ∀ v ∈ f.pixels.get ⟨j, hj⟩, th < (v : Int)) :
    (i, j) ∈ contentCoords f th := by
  have := framesContent_mem_of (y := 0) hj hi hb
  simpa using this

/-! ### Uniformly bright frames (C2) -/

/-- The box state after at least one full-content frame of `W` columns
and `H` rows has been processed. -/
def fullBox (W H : Nat) : BoxState :=
  ⟨(W : Int), (H : Int), some 0, some 0,
   some ((W : Int) - 1), some ((H : Int) - 1), true⟩

/-- For a frame whose pixels are all strictly brighter than the
threshold, the content coordinates are headed by `(0, 0)` and their
extremes span the full frame. -/
lemma contentCoords_uniform (th : Int) (f : Frame) (W H : Nat)
    (hW : 0 < W) (hH : 0 < H) (hlen : f.pixels.length = H)
    (hrow : ∀ row ∈ f.pixels, row.length = W)
    (hbright : ∀ row ∈ f.pixels, ∀ v ∈ row, th < (v : Int)) :
    f.widthI = (W : Int) ∧ f.heightI = (H : Int) ∧
    ∃ cs, contentCoords f th = (0, 0) :: cs ∧
      intsMin 0 (cs.map (fun p : Nat × Nat => (p.1 : Int))) = 0 ∧
      intsMax 0 (cs.map (fun p : Nat × Nat => (p.1 : Int))) = (W : Int) - 1 ∧
      intsMin 0 (cs.map (fun p : Nat × Nat => (p.2 : Int))) = 0 ∧
      intsMax 0 (cs.map (fun p : Nat × Nat => (p.2 : Int))) = (H : Int) - 1 := by
  obtain ⟨r0, rest, hpx⟩ : ∃ r0 rest, f.pixels = r0 :: rest := by
    cases hp : f.pixels with
    | nil => rw [hp] at hlen; simp at hlen; omega
    | cons a b => exact ⟨a, b, rfl⟩
  obtain ⟨v, vs, hr0⟩ : ∃ v vs, r0 = v :: vs := by
    cases hr : r0 with
    | nil =>
      have := hrow r0 (by rw [hpx]; exact List.mem_cons_self r0 rest)
      rw [hr] at this; simp at this; omega
    | cons a b => exact ⟨a, b, rfl⟩
  have hv : th < (v : Int) := by
    refine hbright r0 ?_ v ?_
    · rw [hpx]; exact List.mem_cons_self r0 rest
    · rw [hr0]; exact List.mem_cons_self v vs
  have hwid : f.widthI = (W : Int) := by
    have := hrow r0 (by rw [hpx]; exact List.mem_cons_self r0 rest)
    unfold Frame.widthI
    rw [hpx]
    simpa using congrArg (fun n : Nat => (n : Int)) this
  have hhei : f.heightI = (H : Int) := by
    unfold Frame.heightI
    rw [hlen]
  have hcc : contentCoords f th =
      (0, 0) :: (rowContent th 0 1 vs ++ framesContent th 1 rest) := by
    unfold contentCoords
    rw [hpx, framesContent, hr0, rowContent, if_pos hv]
    rfl
  set cs := rowContent th 0 1 vs ++ framesContent th 1 rest with hcs
  -- every content coordinate is inside the frame
  have hmem : ∀ p : Nat × Nat, p ∈ (0, 0) :: cs → p.1 < W ∧ p.2 < H := by
    intro p hp
    rw [← hcc] at hp
    obtain ⟨j, hj, h1, h2⟩ := mem_contentCoords hp
    have hrl : (f.pixels.get ⟨j, hj⟩).length = W :=
      hrow _ (f.pixels.get_mem j hj)
    rw [hrl] at h2
    rw [hlen] at hj
    exact ⟨h2, by omega⟩
  have hmemcs : ∀ p : Nat × Nat, p ∈ cs → p.1 < W ∧ p.2 < H :=
    fun p hp => hmem p (List.mem_cons_of_mem _ hp)
  -- the corner pixels belong to the content coordinates
  have hWm : ((W - 1 : Nat), (0 : Nat)) ∈ (0, 0) :: cs := by
    rw [← hcc]
    have hj : 0 < f.pixels.length := by rw [hlen]; omega
    refine contentCoords_mem_of hj ?_ ?_
    · rw [hrow _ (f.pixels.get_mem 0 hj)]; omega
    · exact hbright _ (f.pixels.get_mem 0 hj)
  have hHm : ((0 : Nat), (H - 1 : Nat)) ∈ (0, 0) :: cs := by
    rw [← hcc]
    have hj : H - 1 < f.pixels.length := by rw [hlen]; omega
    refine contentCoords_mem_of hj ?_ ?_
    · rw [hrow _ (f.pixels.get_mem (H - 1) hj)]; omega
    · exact hbright _ (f.pixels.get_mem (H - 1) hj)
  refine ⟨hwid, hhei, cs, hcc, ?_, ?_, ?_, ?_⟩
  · -- min x = 0
    refine le_antisymm (intsMin_le_init _ 0) ?_
    rcases intsMin_eq_init_or_mem (cs.map (fun p : Nat × Nat => (p.1 : Int))) 0 with h | h
    · omega
    · obtain ⟨p, _, hpe⟩ := List.mem_map.mp h
      rw [← hpe]
      exact Int.natCast_nonneg p.1
  · -- max x = W - 1
    refine le_antisymm ?_ ?_
    · rcases intsMax_eq_init_or_mem (cs.map (fun p : Nat × Nat => (p.1 : Int))) 0 with h | h
      · omega
      · obtain ⟨p, hpc, hpe⟩ := List.mem_map.mp h
        have := (hmemcs p hpc).1
        omega
    · rcases List.mem_cons.mp hWm with h | h
      · have h0 : W - 1 = 0 := congrArg Prod.fst h
        have := le_intsMax_init (cs.map (fun p : Nat × Nat => (p.1 : Int))) 0
        omega
      · have : ((W - 1 : Nat) : Int) ∈ cs.map (fun p : Nat × Nat => (p.1 : Int)) :=
          List.mem_map.mpr ⟨_, h, rfl⟩
        have := le_intsMax_of_mem _ 0 _ this
        omega
  · -- min y = 0
    refine le_antisymm (intsMin_le_init _ 0) ?_
    rcases intsMin_eq_init_or_mem (cs.map (fun p : Nat × Nat => (p.2 : Int))) 0 with h | h
    · omega
    · obtain ⟨p, _, hpe⟩ := List.mem_map.mp h
      rw [← hpe]
      exact Int.natCast_nonneg p.2
  · -- max y = H - 1
    refine le_antisymm ?_ ?_
    · rcases intsMax_eq_init_or_mem (cs.map (fun p : Nat × Nat => (p.2 : Int))) 0 with h | h
      · omega
      · obtain ⟨p, hpc, hpe⟩ := List.mem_map.mp h
        have := (hmemcs p hpc).2
        omega
    · rcases List.mem_cons.mp hHm with h | h
      · have h0 : H - 1 = 0 := congrArg Prod.snd h
        have := le_intsMax_init (cs.map (fun p : Nat × Nat => (p.2 : Int))) 0
        omega
      · have : ((H - 1 : Nat) : Int) ∈ cs.map (fun p : Nat × Nat => (p.2 : Int)) :=
          List.mem_map.mpr ⟨_, h, rfl⟩
        have := le_intsMax_of_mem _ 0 _ this
        omega

lemma processFrame_uniform_init (th : Int) (f : Frame) (W H : Nat)
    (hW : 0 < W) (hH : 0 < H) (hlen : f.pixels.length = H)
    (hrow : ∀ row ∈ f.pixels, row.length = W)
    (hbright : ∀ row ∈ f.pixels, ∀ v ∈ row, th < (v : Int)) :
    processFrame th initState f = fullBox W H := by
  obtain ⟨hwid, hhei, cs, hcc, h1, h2, h3, h4⟩ :=
    contentCoords_uniform th f W H hW hH hlen hrow hbright
  have hminW : min ((W : Int)) 0 = 0 := min_eq_right (Int.natCast_nonneg W)
  have hmaxW : max (0 : Int) ((W : Int) - 1) = (W : Int) - 1 := max_eq_right (by omega)
  have hminH : min ((H : Int)) 0 = 0 := min_eq_right (Int.natCast_nonneg H)
  have hmaxH : max (0 : Int) ((H : Int) - 1) = (H : Int) - 1 := max_eq_right (by omega)
  unfold processFrame
  simp only [hcc, initState, hwid, hhei, or_self, if_true]
  simp only [Option.getD_some, Nat.cast_zero, h1, h2, h3, h4, fullBox,
    hminW, hmaxW, hminH, hmaxH]

lemma processFrame_uniform_full (th : Int) (f : Frame) (W H : Nat)
    (hW : 0 < W) (hH : 0 < H) (hlen : f.pixels.length = H)
    (hrow : ∀ row ∈ f.pixels, row.length = W)
    (hbright : ∀ row ∈ f.pixels, ∀ v ∈ row, th < (v : Int)) :
    processFrame th (fullBox W H) f = fullBox W H := by
  obtain ⟨hwid, hhei, cs, hcc, h1, h2, h3, h4⟩ :=
    contentCoords_uniform th f W H hW hH hlen hrow hbright
  have hne : ¬((fullBox W H).width = 0 ∨ (fullBox W H).height = 0) := by
    simp only [fullBox]
    omega
  unfold processFrame
  simp only [hcc]
  rw [if_neg hne]
  simp only [fullBox, Option.getD_some, Nat.cast_zero, h1, h2, h3, h4,
    min_self, max_self]

lemma runIndexed_fullBox (env : VideoEnv) (th : Int) (f : Frame) (W H : Nat)
    (hproc : processFrame th (fullBox W H) f = fullBox W H)
    (hread : ∀ i, env.readAt i = .ok (some f)) :
    ∀ idxs, runIndexed env th idxs (fullBox W H) = .ok (fullBox W H) := by
  intro idxs
  induction idxs with
  | nil => rfl
  | cons i rest ih =>
    simp only [runIndexed_cons, hread i]
    rw [hproc]
    exact ih

lemma runSeq_fullBox (env : VideoEnv) (th : Int) (f : Frame) (W H : Nat)
    (hproc : processFrame th (fullBox W H) f = fullBox W H)
    (hread : ∀ k, env.readSeq k = .ok (some f)) :
    ∀ fuel pos, runSeq env th fuel pos (fullBox W H) = .ok (fullBox W H) := by
  intro fuel
  induction fuel with
  | zero => intro pos; rfl
  | succ n ih =>
    intro pos
    simp only [runSeq_succ, hread pos]
    rw [hproc]
    exact ih (pos + 1)

lemma calcBody_uniform (env : VideoEnv) (sf th : Int) (f : Frame) (W H : Nat)
    (hW : 0 < W) (hH : 0 < H) (hlen : f.pixels.length = H)
    (hrow : ∀ row ∈ f.pixels, row.length = W)
    (hbright : ∀ row ∈ f.pixels, ∀ v ∈ row, th < (v : Int))
    (hsf : 0 < sf)
    (hreadA : ∀ i, env.readAt i = .ok (some f))
    (hreadS : ∀ k, env.readSeq k = .ok (some f)) :
    calcBody env sf th = .ok (fullBox W H) := by
  have hinit := processFrame_uniform_init th f W H hW hH hlen hrow hbright
  have hfull := processFrame_uniform_full th f W H hW hH hlen hrow hbright
  have hIdx : ∀ idxs, idxs ≠ [] → runIndexed env th idxs initState = .ok (fullBox W H) := by
    intro idxs hne
    obtain ⟨i, rest, rfl⟩ := List.exists_cons_of_ne_nil hne
    simp only [runIndexed_cons, hreadA i]
    rw [hinit]
    exact runIndexed_fullBox env th f W H hfull hreadA rest
  have hSeq : runSeq env th sf.toNat 0 initState = .ok (fullBox W H) := by
    obtain ⟨n, hn⟩ : ∃ n, sf.toNat = n + 1 := ⟨sf.toNat - 1, by omega⟩
    rw [hn]
    simp only [runSeq_succ, hreadS 0]
    rw [hinit]
    exact runSeq_fullBox env th f W H hfull hreadS n 1
  unfold calcBody
  by_cases hfc : 0 < env.frameCount
  · rw [if_pos hfc]
    obtain ⟨l, hok, hlne⟩ :
        ∃ l, sampleIndices env.frameCount sf = .ok l ∧ l ≠ [] := by
      unfold sampleIndices
      by_cases hle : env.frameCount ≤ sf
      · rw [if_pos hle]
        refine ⟨_, rfl, ?_⟩
        intro hnil
        have := congrArg List.length hnil
        simp at this
        omega
      · have hne0 : ¬ sf = 0 := by omega
        rw [if_neg hle, if_neg hne0]
        refine ⟨_, rfl, ?_⟩
        intro hnil
        have := congrArg List.length hnil
        simp at this
        omega
    simp only [hok]
    rw [if_neg hlne]
    exact hIdx l hlne
  · rw [if_neg hfc]
    exact hSeq

/-- Amended C2: for every video whose sampled frames all have uniform
full-frame brightness strictly above the black threshold,
`calculate_visible_height` returns the classifier applied to the rounded
raw frame ratio — `round(frame_width/frame_height, 2)` itself when that
value falls in one of the four bands, and the default 1.76 otherwise. -/
theorem uniform_bright_classified (env : VideoEnv) (fp : String) (sf th : Int)
    (f : Frame) (W H : Nat)
    (hfp : fp ≠ "") (hpe : env.pathExists = true) (hop : env.opens = true)
    (hsf : 0 < sf)
    (hreadA : ∀ i, env.readAt i = .ok (some f))
    (hreadS : ∀ k, env.readSeq k = .ok (some f))
    (hW : 0 < W) (hH : 0 < H) (hlen : f.pixels.length = H)
    (hrow : ∀ row ∈ f.pixels, row.length = W)
    (hbright : ∀ row ∈ f.pixels, ∀ v ∈ row, th < (v : Int)) :
    calculate_visible_height env fp sf th =
      classifyRatio (round2 ((W : ℚ) / (H : ℚ))) := by
  have hbody := calcBody_uniform env sf th f W H hW hH hlen hrow hbright hsf hreadA hreadS
  have h1 : ¬(fp = "" ∨ env.pathExists = false) := by
    rintro (h | h)
    · exact hfp h
    · rw [hpe] at h; exact absurd h (by simp)
  have h2 : ¬ env.opens = false := by simp [hop]
  unfold calculate_visible_height
  rw [run_eq_ok env fp sf th (fullBox W H) h1 h2 hbody]
  have h3 : ¬((fullBox W H).found_any = false ∨ (fullBox W H).min_x = none) := by
    simp [fullBox]
  rw [if_neg h3]
  have hvw : visW (fullBox W H) = (W : Int) := by
    simp only [visW, fullBox, Option.getD_some]
    omega
  have hvh : visH (fullBox W H) = (H : Int) := by
    simp only [visH, fullBox, Option.getD_some]
    omega
  have h4 : ¬(visH (fullBox W H) ≤ 0 ∨ visW (fullBox W H) ≤ 0) := by
    rw [hvw, hvh]
    rintro (h | h) <;> omega
  rw [if_neg h4, hvw, hvh]
  show classifyRatio (round2 (((W : Int) : ℚ) / ((H : Int) : ℚ))) =
    classifyRatio (round2 ((W : ℚ) / (H : ℚ)))
  simp only [Int.cast_natCast]

/-- A uniformly bright frame of 3 rows × 4 columns (raw ratio 4:3). -/
def frameC2 : Frame := ⟨List.replicate 3 (List.replicate 4 255)⟩

/-- Environment whose every read decodes the uniform 4:3 frame. -/
def envC2 : VideoEnv :=
  ⟨true, true, 1, fun _ => .ok (some frameC2), fun _ => .ok (some frameC2)⟩

set_option maxRecDepth 4000 in
/-- Counterexample to C2: a video whose single sampled frame is
uniformly bright (255 > 16 everywhere) with width 4 and height 3.  The
claim demands `round(4/3, 2) = 1.33`; the code classifies 1.33, finds no
band, and returns the default 1.76 instead. -/
theorem uniform_out_of_band_default :
    (∀ i, envC2.readAt i = .ok (some frameC2)) ∧
    round2 ((4 : ℚ) / 3) = 133 / 100 ∧
    calculate_visible_height envC2 ("f") 8 16 = 176 / 100 ∧
    (176 : ℚ) / 100 ≠ 133 / 100 := by
  refine ⟨fun i => rfl, by norm_num [round2, round_eq], ?_, by norm_num⟩
  have h : calculate_visible_height envC2 ("f") 8 16 =
      classifyRatio (round2 ((((4 : Int)) : ℚ) / (((3 : Int)) : ℚ))) := rfl
  rw [h]
  norm_num [round2, round_eq, classifyRatio, classifyWith, validRatios,
    List.find?, defaultRatio]

/-- Witness for (amended) C2 at the concrete uniform 4:3 video. -/
theorem uniform_bright_classified_witness :
    calculate_visible_height envC2 ("f") 8 16 =
      classifyRatio (round2 ((4 : ℚ) / (3 : ℚ))) :=
  uniform_bright_classified envC2 ("f") 8 16 frameC2 4 3
    (by decide) rfl rfl (by norm_num)
    (fun i => rfl) (fun k => rfl)
    (by norm_num) (by norm_num) (by decide)
    (by decide) (by decide)

/-! ### C7: the bounding-box invariant -/

/-- Invariant of the accumulator: dimensions are non-negative, and once
`found_any` holds the dimensions are positive and the box is well-formed
(min ≤ max on both axes). -/
def BoxInv (st : BoxState) : Prop :=
  0 ≤ st.width ∧ 0 ≤ st.height ∧
  (st.found_any = true → 0 < st.width ∧ 0 < st.height ∧
    (∃ a b, st.min_x = some a ∧ st.max_x = some b ∧ a ≤ b) ∧
    (∃ c d, st.min_y = some c ∧ st.max_y = some d ∧ c ≤ d))

lemma initState_inv : BoxInv initState := by
  refine ⟨le_refl 0, le_refl 0, fun h => ?_⟩
  exact absurd h (by simp [initState])

lemma processFrame_inv (th : Int) (f : Frame) (st : BoxState)
    (hrect : f.Rect) (h : BoxInv st) : BoxInv (processFrame th st f) := by
  unfold processFrame
  cases hcc : contentCoords f th with
  | nil =>
    simp only [hcc]
    by_cases hinit : st.width = 0 ∨ st.height = 0
    · rw [if_pos hinit]
      unfold BoxInv
      refine ⟨?_, ?_, fun hfa => ?_⟩
      · show (0 : Int) ≤ f.widthI
        unfold Frame.widthI
        exact Int.natCast_nonneg _
      · show (0 : Int) ≤ f.heightI
        unfold Frame.heightI
        exact Int.natCast_nonneg _
      · have hfa' : st.found_any = true := hfa
        obtain ⟨hw, hh, -⟩ := h.2.2 hfa'
        exfalso
        rcases hinit with h0 | h0 <;> omega
    · rw [if_neg hinit]
      exact h
  | cons c cs =>
    simp only [hcc]
    have hc : c ∈ contentCoords f th := by
      rw [hcc]; exact List.mem_cons_self c cs
    obtain ⟨j, hj, hcj, hlt⟩ := mem_contentCoords hc
    have hWpos : 0 < (f.pixels.headD []).length := by
      have := hrect _ (f.pixels.get_mem j hj)
      omega
    have hHpos : 0 < f.pixels.length := by omega
    have hxchain : min (st.min_x.getD 0)
          (intsMin (c.1 : Int) (cs.map (fun p : Nat × Nat => (p.1 : Int)))) ≤
        max (st.max_x.getD 0)
          (intsMax (c.1 : Int) (cs.map (fun p : Nat × Nat => (p.1 : Int)))) :=
      le_trans (min_le_right _ _) (le_trans (intsMin_le_init _ _)
        (le_trans (le_intsMax_init _ _) (le_max_right _ _)))
    have hychain : min (st.min_y.getD 0)
          (intsMin (c.2 : Int) (cs.map (fun p : Nat × Nat => (p.2 : Int)))) ≤
        max (st.max_y.getD 0)
          (intsMax (c.2 : Int) (cs.map (fun p : Nat × Nat => (p.2 : Int)))) :=
      le_trans (min_le_right _ _) (le_trans (intsMin_le_init _ _)
        (le_trans (le_intsMax_init _ _) (le_max_right _ _)))
    by_cases hinit : st.width = 0 ∨ st.height = 0
    · rw [if_pos hinit]
      have hxchain' : min (f.widthI)
            (intsMin (c.1 : Int) (cs.map (fun p : Nat × Nat => (p.1 : Int)))) ≤
          max ((0 : Int))
            (intsMax (c.1 : Int) (cs.map (fun p : Nat × Nat => (p.1 : Int)))) :=
        le_trans (min_le_right _ _) (le_trans (intsMin_le_init _ _)
          (le_trans (le_intsMax_init _ _) (le_max_right _ _)))
      have hychain' : min (f.heightI)
            (intsMin (c.2 : Int) (cs.map (fun p : Nat × Nat => (p.2 : Int)))) ≤
          max ((0 : Int))
            (intsMax (c.2 : Int) (cs.map (fun p : Nat × Nat => (p.2 : Int)))) :=
        le_trans (min_le_right _ _) (le_trans (intsMin_le_init _ _)
          (le_trans (le_intsMax_init _ _) (le_max_right _ _)))
      unfold BoxInv
      refine ⟨?_, ?_, fun _ => ⟨?_, ?_, ?_, ?_⟩⟩
      · show (0 : Int) ≤ f.widthI
        unfold Frame.widthI
        exact Int.natCast_nonneg _
      · show (0 : Int) ≤ f.heightI
        unfold Frame.heightI
        exact Int.natCast_nonneg _
      · show (0 : Int) < f.widthI
        unfold Frame.widthI
        omega
      · show (0 : Int) < f.heightI
        unfold Frame.heightI
        omega
      · exact ⟨_, _, rfl, rfl, by simpa using hxchain'⟩
      · exact ⟨_, _, rfl, rfl, by simpa using hychain'⟩
    · rw [if_neg hinit]
      push_neg at hinit
      obtain ⟨hw0, hh0⟩ := hinit
      have h1 := h.1
      have h2 := h.2.1
      unfold BoxInv
      refine ⟨h1, h2, fun _ => ⟨?_, ?_, ?_, ?_⟩⟩
      · show (0 : Int) < st.width
        omega
      · show (0 : Int) < st.height
        omega
      · exact ⟨_, _, rfl, rfl, hxchain⟩
      · exact ⟨_, _, rfl, rfl, hychain⟩

lemma runIndexed_inv (env : VideoEnv) (th : Int)
    (hrect : ∀ i f, env.readAt i = .ok (some f) → f.Rect) :
    ∀ idxs st st', BoxInv st → runIndexed env th idxs st = .ok st' →
      BoxInv st' := by
  intro idxs
  induction idxs with
  | nil =>
    intro st st' hst hrun
    have hrun' : (Except.ok st : Except String BoxState) = .ok st' := hrun
    injection hrun' with heq
    rwa [← heq]
  | cons i rest ih =>
    intro st st' hst hrun
    rw [runIndexed_cons] at hrun
    cases hread : env.readAt i with
    | error e =>
      rw [hread] at hrun
      exact absurd hrun (by simp)
    | ok o =>
      cases o with
      | none =>
        simp only [hread] at hrun
        exact ih st st' hst hrun
      | some f =>
        simp only [hread] at hrun
        exact ih _ st' (processFrame_inv th f st (hrect i f hread) hst) hrun

lemma runSeq_inv (env : VideoEnv) (th : Int)
    (hrect : ∀ k f, env.readSeq k = .ok (some f) → f.Rect) :
    ∀ fuel pos st st', BoxInv st → runSeq env th fuel pos st = .ok st' →
      BoxInv st' := by
  intro fuel
  induction fuel with
  | zero =>
    intro pos st st' hst hrun
    have hrun' : (Except.ok st : Except String BoxState) = .ok st' := hrun
    injection hrun' with heq
    rwa [← heq]
  | succ n ih =>
    intro pos st st' hst hrun
    rw [runSeq_succ] at hrun
    cases hread : env.readSeq pos with
    | error e =>
      rw [hread] at hrun
      exact absurd hrun (by simp)
    | ok o =>
      cases o with
      | none =>
        simp only [hread] at hrun
        injection hrun with heq
        rwa [← heq]
      | some f =>
        simp only [hread] at hrun
        exact ih (pos + 1) _ st'
          (processFrame_inv th f st (hrect pos f hread) hst) hrun

lemma calcBody_inv (env : VideoEnv) (sf th : Int) (st : BoxState)
    (hrectA : ∀ i f, env.readAt i = .ok (some f) → f.Rect)
    (hrectS : ∀ k f, env.readSeq k = .ok (some f) → f.Rect)
    (hok : calcBody env sf th = .ok st) : BoxInv st := by
  unfold calcBody at hok
  by_cases hfc : 0 < env.frameCount
  · rw [if_pos hfc] at hok
    cases hsi : sampleIndices env.frameCount sf with
    | error e =>
      simp only [hsi] at hok
      exact absurd hok (by simp)
    | ok l =>
      simp only [hsi] at hok
      by_cases hl : l = []
      · rw [if_pos hl] at hok
        exact runSeq_inv env th hrectS _ 0 initState st initState_inv hok
      · rw [if_neg hl] at hok
        exact runIndexed_inv env th hrectA l initState st initState_inv hok
  · rw [if_neg hfc] at hok
    exact runSeq_inv env th hrectS _ 0 initState st initState_inv hok

/-- Claim C7: once any sampled frame has contributed at least one
content pixel (`found_any` is true), the accumulated box is well-formed
(min ≤ max on both axes), the visible width and height are ≥ 1, and the
degenerate-dimensions default branch is unreachable: the call returns
the classified measured ratio.  (Frames decoded by OpenCV are
rectangular numpy arrays, stated here as the `Rect` hypotheses.) -/
theorem found_box_wellformed (env : VideoEnv) (sf th : Int) (st : BoxState)
    (hrectA : ∀ i f, env.readAt i = .ok (some f) → f.Rect)
    (hrectS : ∀ k f, env.readSeq k = .ok (some f) → f.Rect)
    (hok : calcBody env sf th = .ok st) (hfa : st.found_any = true) :
    (∃ a b, st.min_x = some a ∧ st.max_x = some b ∧ a ≤ b) ∧
    (∃ c d, st.min_y = some c ∧ st.max_y = some d ∧ c ≤ d) ∧
    1 ≤ visW st ∧ 1 ≤ visH st ∧
    (∀ fp, fp ≠ "" → env.pathExists = true → env.opens = true →
      calculate_visible_height env fp sf th =
        classifyRatio (round2 ((visW st : ℚ) / (visH st : ℚ)))) := by
  obtain ⟨-, -, h3⟩ := calcBody_inv env sf th st hrectA hrectS hok
  obtain ⟨hw, hh, hx, hy⟩ := h3 hfa
  obtain ⟨a, b, hax, hbx, hab⟩ := hx
  obtain ⟨c, d, hcy, hdy, hcd⟩ := hy
  have hvw : 1 ≤ visW st := by
    unfold visW
    rw [hax, hbx]
    simp only [Option.getD_some]
    omega
  have hvh : ((1 : Int)) ≤ visH st := by
    unfold visH
    rw [hcy, hdy]
    simp only [Option.getD_some]
    omega
  refine ⟨⟨a, b, hax, hbx, hab⟩, ⟨c, d, hcy, hdy, hcd⟩, hvw, hvh, ?_⟩
  intro fp hfp hpe hop
  have h1 : ¬(fp = "" ∨ env.pathExists = false) := by
    rintro (h | h)
    · exact hfp h
    · rw [hpe] at h; exact absurd h (by simp)
  have h2 : ¬env.opens = false := by simp [hop]
  unfold calculate_visible_height
  rw [run_eq_ok env fp sf th st h1 h2 hok]
  have h3' : ¬(st.found_any = false ∨ st.min_x = none) := by
    rintro (h | h)
    · rw [hfa] at h; exact absurd h (by simp)
    · rw [hax] at h; exact absurd h (by simp)
  rw [if_neg h3']
  have h4 : ¬(visH st ≤ 0 ∨ visW st ≤ 0) := by
    rintro (h | h) <;> omega
  rw [if_neg h4]

/-- A 1×1 bright frame. -/
def frameC7 : Frame := ⟨[[255]]⟩

/-- Environment decoding the 1×1 bright frame at every index. -/
def envC7 : VideoEnv :=
  ⟨true, true, 1, fun _ => .ok (some frameC7), fun _ => .ok none⟩

/-- The accumulator produced by the single sampled 1×1 bright frame. -/
def stC7 : BoxState := ⟨1, 1, some 0, some 0, some 0, some 0, true⟩

/-- Witness for C7 at a concrete run whose sample contributed a pixel. -/
theorem found_box_wellformed_witness :
    1 ≤ visW stC7 ∧ 1 ≤ visH stC7 ∧
    (∃ a b, stC7.min_x = some a ∧ stC7.max_x = some b ∧ a ≤ b) := by
  have h := found_box_wellformed envC7 8 16 stC7
    (fun i f hf => by
      have hfe : frameC7 = f := by simpa [envC7] using hf
      rw [← hfe]
      unfold Frame.Rect
      decide)
    (fun k f hf => by simp [envC7] at hf)
    rfl rfl
  exact ⟨h.2.2.1, h.2.2.2.1, h.1⟩

/-! ### C8: the path resolver's rules -/

lemma takeWhile_all {α : Type} (q : α → Bool) :
    ∀ l : List α, (∀ a ∈ l, q a = true) → l.takeWhile q = l := by
  intro l
  induction l with
  | nil => intro _; rfl
  | cons a as ih =>
    intro h
    rw [List.takeWhile_cons, h a (List.mem_cons_self a as)]
    rw [ih (fun b hb => h b (List.mem_cons_of_mem a hb))]
    simp

lemma driveMatch_some_of (c : Char) (rest : PyStr) (hc : c.isAlpha = true) :
    driveMatch (c :: ':' :: '/' :: rest) =
      some (rest.takeWhile (fun ch => ch ≠ '\n')) := by
  show (if c.isAlpha ∧ ':' = ':' ∧ '/' = '/' then
      some (rest.takeWhile (fun ch => ch ≠ '\n')) else none) =
    some (rest.takeWhile (fun ch => ch ≠ '\n'))
  rw [if_pos ⟨hc, rfl, rfl⟩]

lemma driveMatch_none_of (np : PyStr)
    (h : ∀ c rest, np = c :: ':' :: '/' :: rest → c.isAlpha = false) :
    driveMatch np = none := by
  rcases np with _ | ⟨c, _ | ⟨c2, _ | ⟨c3, rest⟩⟩⟩
  · rfl
  · rfl
  · rfl
  · show (if c.isAlpha ∧ c2 = ':' ∧ c3 = '/' then
        some (rest.takeWhile (fun ch => ch ≠ '\n')) else none) = none
    by_cases hcond : (c.isAlpha = true) ∧ c2 = ':' ∧ c3 = '/'
    · obtain ⟨ha, hb, hcx⟩ := hcond
      subst hb; subst hcx
      have := h c rest rfl
      rw [this] at ha
      exact absurd ha (by simp)
    · rw [if_neg hcond]

lemma slash_isPrefixOf (np : PyStr) :
    (['/'] : PyStr).isPrefixOf np = true ↔ ∃ t, np = '/' :: t := by
  constructor
  · intro h
    cases np with
    | nil => simp [List.isPrefixOf] at h
    | cons c t =>
      simp [List.isPrefixOf] at h
      exact ⟨t, by rw [h]⟩
  · rintro ⟨t, rfl⟩
    simp [List.isPrefixOf]

/-- Claim C8: `map_plex_path_to_container` implements the four
resolution rules, read over the separator-normalised, trimmed path:
it always resolves a nonempty path; a path already under the local root
is returned as-is (and genuinely unchanged when the input needed no
normalisation); a drive-letter path has the drive stripped and the
remainder re-rooted; any other absolute path has its leading slashes
stripped and is re-rooted; any other path contributes only its final
component, re-rooted. -/
theorem map_plex_path_rules (root p : PyStr) (hp : p ≠ []) :
    (∃ q, map_plex_path_to_container root p = some q) ∧
    (root.isPrefixOf (normalizePlex p) = true →
      map_plex_path_to_container root p = some (normalizePlex p)) ∧
    (normalizePlex p = p → root.isPrefixOf p = true →
      map_plex_path_to_container root p = some p) ∧
    (∀ c rest, root.isPrefixOf (normalizePlex p) = false →
      normalizePlex p = c :: ':' :: '/' :: rest → c.isAlpha = true →
      '\n' ∉ rest →
      map_plex_path_to_container root p =
        some (pyJoin root (rest.dropWhile (fun ch => ch = '/')))) ∧
    (root.isPrefixOf (normalizePlex p) = false →
      (∃ t, normalizePlex p = '/' :: t) →
      map_plex_path_to_container root p =
        some (pyJoin root ((normalizePlex p).dropWhile (fun ch => ch = '/')))) ∧
    (root.isPrefixOf (normalizePlex p) = false →
      (∀ c rest, normalizePlex p = c :: ':' :: '/' :: rest → c.isAlpha = false) →
      (∀ t, normalizePlex p ≠ '/' :: t) →
      map_plex_path_to_container root p =
        some (pyJoin root (pyBasename (normalizePlex p)))) := by
  have hmap : map_plex_path_to_container root p =
      mapResolve root (normalizePlex p) := by
    unfold map_plex_path_to_container
    rw [if_neg hp]
  refine ⟨?_, ?_, ?_, ?_, ?_, ?_⟩
  · -- always resolves
    rw [hmap]
    unfold mapResolve
    by_cases h1 : root.isPrefixOf (normalizePlex p) = true
    · rw [if_pos h1]; exact ⟨_, rfl⟩
    · rw [if_neg h1]
      cases hd : driveMatch (normalizePlex p) with
      | some rel => exact ⟨_, rfl⟩
      | none =>
        by_cases h2 : (['/', '/'] : PyStr).isPrefixOf (normalizePlex p) ∨
            (['/'] : PyStr).isPrefixOf (normalizePlex p)
        · rw [if_pos h2]; exact ⟨_, rfl⟩
        · rw [if_neg h2]; exact ⟨_, rfl⟩
  · -- rule 1, over the normalised path
    intro h1
    rw [hmap]
    unfold mapResolve
    rw [if_pos h1]
  · -- rule 1, genuinely unchanged input
    intro hnorm h1
    rw [hmap, hnorm]
    unfold mapResolve
    rw [if_pos h1]
  · -- rule 2: drive-letter prefix
    intro c rest h1 hnp hca hnl
    rw [hmap]
    unfold mapResolve
    rw [if_neg (by rw [h1]; simp), hnp, driveMatch_some_of c rest hca,
      takeWhile_all _ rest (fun a ha => by
        simp only [ne_eq, decide_eq_true_eq]
        intro hne
        exact hnl (hne ▸ ha))]
  · -- rule 3: other absolute path
    intro h1 hsl
    obtain ⟨t, ht⟩ := hsl
    have hdm : driveMatch (normalizePlex p) = none := by
      refine driveMatch_none_of _ (fun c rest hshape => ?_)
      rw [ht] at hshape
      have hc : c = '/' := by
        injection hshape with hh _
        exact hh.symm
      rw [hc]
      decide
    rw [hmap]
    unfold mapResolve
    rw [if_neg (by rw [h1]; simp), hdm]
    rw [if_pos (Or.inr ((slash_isPrefixOf _).mpr ⟨t, ht⟩))]
  · -- rule 4: fallback to the final component
    intro h1 hnd hns
    have hdm : driveMatch (normalizePlex p) = none := driveMatch_none_of _ hnd
    have hnp2 : ¬((['/', '/'] : PyStr).isPrefixOf (normalizePlex p) ∨
        (['/'] : PyStr).isPrefixOf (normalizePlex p)) := by
      rintro (h | h)
      · rcases hq : normalizePlex p with _ | ⟨c, t⟩
        · rw [hq] at h; simp [List.isPrefixOf] at h
        · rw [hq] at h
          simp [List.isPrefixOf] at h
          exact hns t (by rw [hq, h.1])
      · obtain ⟨t, ht⟩ := (slash_isPrefixOf _).mp h
        exact hns t ht
    rw [hmap]
    unfold mapResolve
    rw [if_neg (by rw [h1]; simp), hdm, if_neg hnp2]

/-- Witness for C8: the spec's concrete scenarios — the Windows path
`Y:\Movies\file.mkv` maps to `/video/Movies/file.mkv`, and a path
already under `/video` is returned unchanged. -/
theorem map_plex_path_rules_witness :
    map_plex_path_to_container (("/video").toList) (("Y:\\Movies\\file.mkv").toList) =
      some (("/video/Movies/file.mkv").toList) ∧
    map_plex_path_to_container (("/video").toList) (("/video/Filme/a.mkv").toList) =
      some (("/video/Filme/a.mkv").toList) := by
  constructor
  · have hnp : normalizePlex (("Y:\\Movies\\file.mkv").toList) =
        'Y' :: ':' :: '/' :: (("Movies/file.mkv").toList) := by
      simp [normalizePlex, pyReplace, pyStrip]
    have h := (map_plex_path_rules (("/video").toList)
        (("Y:\\Movies\\file.mkv").toList) (by simp)).2.2.2.1
      'Y' (("Movies/file.mkv").toList)
      (by rw [hnp]; decide) hnp (by decide) (by decide)
    rw [h]
    decide
  · have hnorm : normalizePlex (("/video/Filme/a.mkv").toList) =
        (("/video/Filme/a.mkv").toList) := by
      simp [normalizePlex, pyReplace, pyStrip]
    have h := (map_plex_path_rules (("/video").toList)
        (("/video/Filme/a.mkv").toList) (by simp)).2.2.1 hnorm (by decide)
    exact h

end MovieDimension
